import Mathlib

/-!
# Goods service: shallow embedding

A shallow embedding of the goods domain core (`Service` in the goods service
module, plus the `config.good.types` constant). JavaScript runtime values are
modelled by `JSVal`; a thrown exception is modelled by `Except.error ()`;
repository calls are modelled by a `Repo` record of oracles. Numbers are
modelled by `Int` (the source only compares against `0`). Concurrent fan-out
(`Promise.all`) is modelled by `List.mapM` over `Except`: result order is
input order, and one rejected element rejects the whole batch, as
`Promise.all` does. Where the source pushes results in completion order
(`checkIfComponentExists`), the model uses input order; all statements proved
about that list are order-insensitive or about concrete single-order runs.
-/

set_option autoImplicit false

namespace Goods

/-- A JavaScript runtime value, as far as the goods core observes it. -/
inductive JSVal where
  | undefined : JSVal
  | null : JSVal
  | bool : Bool → JSVal
  | num : Int → JSVal
  | str : String → JSVal
  | arr : List JSVal → JSVal
  | obj : List (String × JSVal) → JSVal

/-- JavaScript truthiness (no NaN in the integer model). -/
def truthy : JSVal → Bool
  | .undefined => false
  | .null => false
  | .bool b => b
  | .num n => n != 0
  | .str s => s != ""
  | .arr _ => true
  | .obj _ => true

/-- `typeof v === 'string'`. -/
def isStr : JSVal → Bool
  | .str _ => true
  | _ => false

/-- `typeof v === 'number'`. -/
def isNum : JSVal → Bool
  | .num _ => true
  | _ => false

/-- The numeric value of a number (`0` default is only read behind `isNum`). -/
def asNum : JSVal → Int
  | .num n => n
  | _ => 0

/-- The string value of a string (`""` default is only read behind `isStr`). -/
def asStr : JSVal → String
  | .str s => s
  | _ => ""

/-- Property access `v.k`: throws on `null`/`undefined`, looks the key up on an
object, and yields `undefined` on every other (boxed) primitive or array. -/
def getField : JSVal → String → Except Unit JSVal
  | .undefined, _ => .error ()
  | .null, _ => .error ()
  | .obj fs, k => .ok ((fs.lookup k).getD .undefined)
  | _, _ => .ok .undefined

/-- `delete v[k]`: removes the key from an object, a no-op elsewhere. -/
def delField : JSVal → String → JSVal
  | .obj fs, k => .obj (fs.filter (fun p => p.1 != k))
  | v, _ => v

/-- String conversion used by template literals and `Array.join`. -/
def jsToString : JSVal → String
  | .undefined => "undefined"
  | .null => "null"
  | .bool b => if b then "true" else "false"
  | .num n => toString n
  | .str s => s
  | .arr _ => ""
  | .obj _ => "[object Object]"

/-- `config.good.types` from the configuration module. -/
def configGoodTypes : List String := ["raw", "semi-finished", "finished"]

/-- `Service.validateProperties`: both `name` and `value` must be text. -/
def validateProperties (property : JSVal) : Except Unit Bool := do
  let n ← getField property "name"
  let v ← getField property "value"
  pure (isStr n && isStr v)

/-- `Service.validateComponent`: `id` and `quantity` must be positive numbers. -/
def validateComponent (component : JSVal) : Except Unit Bool := do
  let i ← getField component "id"
  let q ← getField component "quantity"
  pure (isNum i && decide (0 < asNum i) && isNum q && decide (0 < asNum q))

/-- The `if (field) \x7b field.forEach(validate one entry) \x7d` pattern of
`validateGoodFormat`: a truthy non-array throws (`forEach` is not a function);
an array is scanned in full, an element validator throwing propagates. -/
def checkArrayField (validate : JSVal → Except Unit Bool) (v : JSVal) :
    Except Unit Bool := do
  if truthy v then
    match v with
    | .arr xs => do
        let rs ← xs.mapM validate
        pure (rs.all (fun b => b))
    | _ => Except.error ()
  else
    pure true

/-- The `switch (good.type)` block of `validateGoodFormat`: `raw` needs a text
`vendor`, `finished` a positive numeric `price` (strict string comparison, so
only string values hit a case; `break` maps to `true`). -/
def typeSpecificOk (good : JSVal) (ty : JSVal) : Except Unit Bool :=
  if asStr ty = "raw" then do
    let vendor ← getField good "vendor"
    pure (isStr vendor)
  else if asStr ty = "finished" then do
    let price ← getField good "price"
    pure (isNum price && decide (0 < asNum price))
  else
    pure true

/-- The trailing `properties` / `components` blocks of `validateGoodFormat`:
the properties scan reports before the components scan runs. -/
def arraysOk (good : JSVal) : Except Unit Bool := do
  let props ← getField good "properties"
  let propsOk ← checkArrayField validateProperties props
  if propsOk = false then
    pure false
  else do
    let comps ← getField good "components"
    let compsOk ← checkArrayField validateComponent comps
    if compsOk = false then
      pure false
    else
      pure true

/-- `Service.validateGoodFormat`. -/
def validateGoodFormat (good : JSVal) : Except Unit Bool := do
  let name ← getField good "name"
  let ty ← getField good "type"
  let processTime ← getField good "processTime"
  let cost ← getField good "cost"
  if isStr name = false ∨ isStr ty = false ∨ isNum processTime = false ∨
      isNum cost = false ∨ asNum cost ≤ 0 ∨ asNum processTime ≤ 0 ∨
      configGoodTypes.contains (asStr ty) = false then
    pure false
  else do
    let typeOk ← typeSpecificOk good ty
    if typeOk = false then
      pure false
    else
      arraysOk good

/-- The repository collaborator (`GoodModel` / variant models): `findById` may
throw (`Except.error`) or return a value (a falsy value such as `undefined`
models "not found"); `save` tells whether a variant model's `save()` succeeds;
`archive` models `GoodModel.archive(id, archive)` returning a truthy value on
success, a falsy one when the id is unknown, or throwing. -/
structure Repo where
  findById : JSVal → Except Unit JSVal
  save : JSVal → Bool
  archive : JSVal → JSVal → Except Unit JSVal

/-- The uniform result envelope `\x7bstatus, message, good?\x7d`; operations
that carry no `good` key leave it `undefined`. -/
structure Envelope where
  status : Bool
  message : JSVal
  good : JSVal := JSVal.undefined

/-- `Service.cleanUpGood`: per-type field redaction via `delete`. -/
def cleanUpGood (good : JSVal) : Except Unit JSVal := do
  let ty ← getField good "type"
  match ty with
  | .str s =>
      if s = "raw" then
        pure (delField good "price")
      else if s = "semi-finished" then
        pure (delField (delField good "price") "vendor")
      else if s = "finished" then
        pure (delField good "vendor")
      else
        pure good
  | _ => pure good

/-- `Service.cleanUpMultipleOfGoods`: element-wise redaction. -/
def cleanUpMultipleOfGoods (goods : List JSVal) : Except Unit (List JSVal) :=
  goods.mapM cleanUpGood

/-- `Service.getSingleGood`: all repository failures are caught and reported
as a `status: false` envelope; a falsy row is the "not found" outcome. -/
def getSingleGood (repo : Repo) (id : JSVal) : Envelope :=
  match repo.findById id with
  | .error _ =>
      { status := false
        message := .str ("Failed while getting good with id " ++ jsToString id) }
  | .ok good =>
      if truthy good then
        match cleanUpGood good with
        | .ok g => { status := true, message := g }
        | .error _ =>
            { status := false
              message := .str ("Failed while getting good with id " ++ jsToString id) }
      else
        { status := false
          message := .str ("Good with id: " ++ jsToString id ++ " not found") }

/-- The `onlyId` step of `checkIfComponentExists`:
`components.map(c => c.id)` — one lookup is then issued per entry of this
list. A non-array receiver makes `.map` throw. -/
def componentLookups (components : JSVal) : Except Unit (List JSVal) :=
  match components with
  | .arr cs => cs.mapM (fun c => getField c "id")
  | _ => .error ()

/-- `Service.checkIfComponentExists`: for each mapped id, one `getSingleGood`
read; ids whose envelope has `status: false` are collected (modelled in input
order; the source pushes in completion order). -/
def checkIfComponentExists (repo : Repo) (components : JSVal) :
    Except Unit (List JSVal) := do
  let onlyId ← componentLookups components
  pure (onlyId.filter (fun id => !(getSingleGood repo id).status))

/-- Whether a `type` value hits one of the three variant cases of the save
switch in `addSingleGood` (strict string comparison). -/
def isVariantCase : JSVal → Bool
  | .str s => s == "raw" || s == "semi-finished" || s == "finished"
  | _ => false

/-- The `try \x7b switch save \x7d catch` tail of `addSingleGood`. The second
component of the result records the goods passed to a variant model `save()`
call (the persistence trace). A type outside the three cases falls through
the switch and still reports success (unreachable behind validation). -/
def saveGood (repo : Repo) (good : JSVal) : Except Unit Envelope × List JSVal :=
  match getField good "type" with
  | .ok ty =>
      if isVariantCase ty then
        if repo.save good then
          (.ok { status := true, message := .str "Successfully saved new good",
                 good := good }, [good])
        else
          (.ok { status := false, message := .str "Failed while saving good",
                 good := good }, [good])
      else
        (.ok { status := true, message := .str "Successfully saved new good",
               good := good }, [])
  | .error _ =>
      (.ok { status := false, message := .str "Failed while saving good",
             good := good }, [])

/-- `Service.addSingleGood`: validate, then (if `components` is truthy)
resolve components, then persist; the first failing stage short-circuits.
The list records the persistence calls performed. -/
def addSingleGood (repo : Repo) (good : JSVal) :
    Except Unit Envelope × List JSVal :=
  match validateGoodFormat good with
  | .error _ => (.error (), [])
  | .ok false =>
      (.ok { status := false, message := .str "Failed while validating good",
             good := good }, [])
  | .ok true =>
      match getField good "components" with
      | .error _ => (.error (), [])
      | .ok comps =>
          if truthy comps then
            match checkIfComponentExists repo comps with
            | .error _ => (.error (), [])
            | .ok notExist =>
                if notExist.length > 0 then
                  (.ok { status := false
                         message := .str ("Failed to save component: " ++
                           String.intercalate ", " (notExist.map jsToString) ++
                           " does not exist")
                         good := good }, [])
                else
                  saveGood repo good
          else
            saveGood repo good

/-- `Service.addBulkGoods`: `Promise.all` over `addSingleGood`; results in
input order, a rejected element rejects the batch. -/
def addBulkGoods (repo : Repo) (goods : List JSVal) :
    Except Unit (List Envelope) :=
  goods.mapM (fun g => (addSingleGood repo g).1)

/-- `Service.archiveGood`: archive or un-archive one id, mapping the truthy /
falsy / thrown repository outcomes to the three envelopes. -/
def archiveGood (repo : Repo) (id : JSVal) (archive : JSVal) : Envelope :=
  let dir := if truthy archive then "archive" else "un-archive"
  match repo.archive id archive with
  | .error _ =>
      { status := false
        message := .str ("Failed to " ++ dir ++ " good with id " ++ jsToString id) }
  | .ok r =>
      if truthy r then
        { status := true
          message := .str (dir ++ " successfull for good with id: " ++ jsToString id) }
      else
        { status := false
          message := .str ("Failed to " ++ dir ++ " good with id " ++ jsToString id ++
            ", good not found") }

/-- `Service.archiveMultipleGoods`: `Promise.all` over
`archiveGood(entry.id, entry.archive)`; results in input order, a rejected
element (a `null` entry, say) rejects the batch. -/
def archiveMultipleGoods (repo : Repo) (goods : List JSVal) :
    Except Unit (List Envelope) :=
  goods.mapM (fun g => do
    let id ← getField g "id"
    let ar ← getField g "archive"
    pure (archiveGood repo id ar))

/-! ### Concrete fixtures -/

/-- A well-formed raw candidate. -/
def rawEx : JSVal :=
  .obj [("name", .str "Steel Rod"), ("type", .str "raw"), ("cost", .num 5),
        ("processTime", .num 1), ("vendor", .str "Acme")]

/-- A well-formed semi-finished candidate. -/
def semiEx : JSVal :=
  .obj [("name", .str "Rod Bundle"), ("type", .str "semi-finished"),
        ("cost", .num 3), ("processTime", .num 2)]

/-- A well-formed finished candidate. -/
def finEx : JSVal :=
  .obj [("name", .str "Chair"), ("type", .str "finished"), ("cost", .num 4),
        ("processTime", .num 6), ("price", .num 20)]

/-- An otherwise well-formed raw candidate whose `name` is the empty string. -/
def emptyNameEx : JSVal :=
  .obj [("name", .str ""), ("type", .str "raw"), ("cost", .num 5),
        ("processTime", .num 1), ("vendor", .str "Acme")]

/-- An otherwise well-formed raw candidate whose `properties` field is the
truthy non-sequence value `1`. -/
def badPropsEx : JSVal :=
  .obj [("name", .str "Steel Rod"), ("type", .str "raw"), ("cost", .num 5),
        ("processTime", .num 1), ("vendor", .str "Acme"),
        ("properties", .num 1)]

/-- A component reference to id 7 with quantity 2. -/
def comp7 : JSVal := .obj [("id", .num 7), ("quantity", .num 2)]

/-- A component reference to id 99 with quantity 1. -/
def comp99 : JSVal := .obj [("id", .num 99), ("quantity", .num 1)]

/-- A component reference to id 42 with quantity 3. -/
def comp42 : JSVal := .obj [("id", .num 42), ("quantity", .num 3)]

/-- A repository in which only the good with id 7 exists, every save
succeeds, and every archive call succeeds. -/
def repoEx : Repo where
  findById := fun id =>
    match id with
    | .num n => if n = 7 then .ok rawEx else .ok .undefined
    | _ => .ok .undefined
  save := fun _ => true
  archive := fun _ _ => .ok (.bool true)

/-- A repository whose lookup of id 5 throws and finds nothing else. -/
def errRepo : Repo where
  findById := fun id =>
    match id with
    | .num n => if n = 5 then .error () else .ok .undefined
    | _ => .ok .undefined
  save := fun _ => true
  archive := fun _ _ => .ok (.bool true)

/-- A raw good as stored, carrying a `price` field to be redacted. -/
def rawPricedEx : JSVal :=
  .obj [("name", .str "Steel Rod"), ("type", .str "raw"), ("cost", .num 5),
        ("processTime", .num 1), ("vendor", .str "Acme"), ("price", .num 9)]

/-- A good whose `type` is none of the three variants. -/
def unknownTypeEx : JSVal :=
  .obj [("name", .str "Mystery"), ("type", .str "widget"), ("cost", .num 2),
        ("price", .num 3), ("vendor", .str "Acme")]

/-- A repository that returns `unknownTypeEx` for every lookup. -/
def mysteryRepo : Repo where
  findById := fun _ => .ok unknownTypeEx
  save := fun _ => true
  archive := fun _ _ => .ok (.bool true)

/-- An otherwise well-formed raw candidate whose `cost` is `0`. -/
def badCostEx : JSVal :=
  .obj [("name", .str "Steel Rod"), ("type", .str "raw"), ("cost", .num 0),
        ("processTime", .num 1), ("vendor", .str "Acme")]

/-- An otherwise well-formed raw candidate missing its `name` field. -/
def noNameEx : JSVal :=
  .obj [("type", .str "raw"), ("cost", .num 1), ("processTime", .num 1),
        ("vendor", .str "Acme")]

/-- A well-formed raw candidate that references component 7. -/
def rawCompsEx : JSVal :=
  .obj [("name", .str "Steel Rod"), ("type", .str "raw"), ("cost", .num 5),
        ("processTime", .num 1), ("vendor", .str "Acme"),
        ("components", .arr [comp7])]

/-- The per-element results of the three-candidate bulk add example. -/
def bulkResultsEx : List Envelope :=
  [{ status := true, message := .str "Successfully saved new good", good := rawEx },
   { status := false, message := .str "Failed while validating good", good := badCostEx },
   { status := true, message := .str "Successfully saved new good", good := finEx }]

/-! ### Basic lemmas about the embedding -/

@[simp] theorem ok_bind {α β : Type} (a : α) (f : α → Except Unit β) :
    (Except.ok a >>= f : Except Unit β) = f a := rfl

@[simp] theorem error_bind {α β : Type} (f : α → Except Unit β) :
    ((Except.error () : Except Unit α) >>= f) = Except.error () := rfl

@[simp] theorem pure_ok {α : Type} (a : α) : (pure a : Except Unit α) = Except.ok a := rfl

/-- A value on which one property access succeeded supports every access. -/
theorem getField_ok_any {good v : JSVal} {k : String} (k' : String)
    (h : getField good k = .ok v) : ∃ w, getField good k' = .ok w := by
  cases good <;> simp [getField] at h ⊢

/-- Only objects carry string-valued fields. -/
theorem getField_str_obj {good : JSVal} {k s : String}
    (h : getField good k = .ok (.str s)) : ∃ fs, good = .obj fs := by
  cases good <;> simp_all [getField]

/-- Looking a key up after filtering that key out gives nothing. -/
theorem lookup_filter_self (fs : List (String × JSVal)) (k : String) :
    (fs.filter (fun p => p.1 != k)).lookup k = none := by
  rw [List.lookup_eq_none_iff]
  intro p hp
  have hne : p.1 ≠ k := by simpa [bne_iff_ne] using List.of_mem_filter hp
  simpa [bne_iff_ne] using Ne.symm hne

/-- Filtering one key out leaves every other key's lookup unchanged. -/
theorem lookup_filter_ne (fs : List (String × JSVal)) {k k' : String}
    (h : k' ≠ k) : (fs.filter (fun p => p.1 != k)).lookup k' = fs.lookup k' := by
  induction fs with
  | nil => rfl
  | cons p t ih =>
      obtain ⟨a, b⟩ := p
      by_cases hak : a = k
      · subst hak
        rw [List.filter_cons_of_neg (by simp), ih, List.lookup_cons]
        have : (k' == a) = false := by simp [h]
        rw [this]
      · rw [List.filter_cons_of_pos (by simp [bne_iff_ne, hak]),
          List.lookup_cons, List.lookup_cons, ih]

/-- Deleting a key empties that key on objects. -/
theorem getField_delField_self {fs : List (String × JSVal)} (k : String) :
    getField (delField (.obj fs) k) k = .ok .undefined := by
  simp [delField, getField, lookup_filter_self]

/-- Deleting a key leaves every other key's access unchanged. -/
theorem getField_delField_ne (v : JSVal) {k k' : String} (h : k' ≠ k) :
    getField (delField v k) k' = getField v k' := by
  cases v <;> simp [delField, getField, lookup_filter_ne _ h]

/-- Deleting a key twice is deleting it once. -/
theorem delField_delField_self (v : JSVal) (k : String) :
    delField (delField v k) k = delField v k := by
  cases v <;> simp [delField, List.filter_filter]

/-- Deletions of different keys commute. -/
theorem delField_comm (v : JSVal) (a b : String) :
    delField (delField v a) b = delField (delField v b) a := by
  cases v <;> simp [delField, List.filter_filter]
  case obj fs => exact List.filter_congr fun p _ => Bool.and_comm _ _

/-- `mapM` over `Except` preserves length on success. -/
theorem mapM_ok_length {α β : Type} {f : α → Except Unit β} :
    ∀ {xs : List α} {ys : List β}, xs.mapM f = .ok ys → ys.length = xs.length := by
  intro xs
  induction xs with
  | nil =>
      intro ys h
      simp only [List.mapM_nil, pure_ok] at h
      cases h
      rfl
  | cons a t ih =>
      intro ys h
      rw [List.mapM_cons] at h
      cases hfa : f a with
      | error e => rw [hfa] at h; cases e; simp at h
      | ok y =>
          rw [hfa, ok_bind] at h
          cases hmt : t.mapM f with
          | error e => rw [hmt] at h; cases e; simp at h
          | ok ys' =>
              rw [hmt, ok_bind, pure_ok] at h
              cases h
              simp [ih hmt]

/-- On success, `mapM` over `Except` applies `f` slot by slot. -/
theorem mapM_ok_get {α β : Type} {f : α → Except Unit β} :
    ∀ {xs : List α} {ys : List β}, xs.mapM f = .ok ys →
      ∀ i (hi : i < xs.length) (hi' : i < ys.length),
        f (xs.get ⟨i, hi⟩) = .ok (ys.get ⟨i, hi'⟩) := by
  intro xs
  induction xs with
  | nil => intro ys h i hi; exact absurd hi (by simp)
  | cons a t ih =>
      intro ys h i hi hi'
      rw [List.mapM_cons] at h
      cases hfa : f a with
      | error e => rw [hfa] at h; cases e; simp at h
      | ok y =>
          rw [hfa, ok_bind] at h
          cases hmt : t.mapM f with
          | error e => rw [hmt] at h; cases e; simp at h
          | ok ys' =>
              rw [hmt, ok_bind, pure_ok] at h
              cases h
              cases i with
              | zero => simpa using hfa
              | succ j =>
                  exact ih hmt j (Nat.lt_of_succ_lt_succ hi) (Nat.lt_of_succ_lt_succ hi')

/-- `mapM` over `Except` succeeds when `f` succeeds on every element. -/
theorem mapM_ok_of_forall {α β : Type} {f : α → Except Unit β} :
    ∀ {xs : List α}, (∀ x ∈ xs, ∃ y, f x = .ok y) → ∃ ys, xs.mapM f = .ok ys := by
  intro xs
  induction xs with
  | nil => intro _; exact ⟨[], rfl⟩
  | cons a t ih =>
      intro h
      obtain ⟨y, hy⟩ := h a (List.mem_cons_self a t)
      obtain ⟨ys, hys⟩ := ih fun x hx => h x (List.mem_cons_of_mem a hx)
      exact ⟨y :: ys, by rw [List.mapM_cons, hy, ok_bind, hys, ok_bind, pure_ok]⟩

/-! ### Reduction lemmas for `cleanUpGood` -/

theorem cleanUpGood_eq_raw {good : JSVal}
    (h : getField good "type" = .ok (.str "raw")) :
    cleanUpGood good = .ok (delField good "price") := by
  unfold cleanUpGood
  rw [h, ok_bind]
  simp

theorem cleanUpGood_eq_semi {good : JSVal}
    (h : getField good "type" = .ok (.str "semi-finished")) :
    cleanUpGood good = .ok (delField (delField good "price") "vendor") := by
  unfold cleanUpGood
  rw [h, ok_bind]
  simp

theorem cleanUpGood_eq_finished {good : JSVal}
    (h : getField good "type" = .ok (.str "finished")) :
    cleanUpGood good = .ok (delField good "vendor") := by
  unfold cleanUpGood
  rw [h, ok_bind]
  simp

/-- A `type` outside the three switch cases falls through unchanged. -/
theorem cleanUpGood_eq_other {good v : JSVal}
    (h : getField good "type" = .ok v) (h1 : v ≠ .str "raw")
    (h2 : v ≠ .str "semi-finished") (h3 : v ≠ .str "finished") :
    cleanUpGood good = .ok good := by
  unfold cleanUpGood
  rw [h, ok_bind]
  cases v with
  | str s =>
      have hs1 : ¬s = "raw" := fun hh => h1 (by rw [hh])
      have hs2 : ¬s = "semi-finished" := fun hh => h2 (by rw [hh])
      have hs3 : ¬s = "finished" := fun hh => h3 (by rw [hh])
      simp [hs1, hs2, hs3]
  | undefined => rfl
  | null => rfl
  | bool b => rfl
  | num n => rfl
  | arr xs => rfl
  | obj fs => rfl

/-- Reduction of `validateGoodFormat` once the four field reads are known. -/
theorem validateGoodFormat_reduce {good nv tv pv cv : JSVal}
    (hn : getField good "name" = .ok nv) (ht : getField good "type" = .ok tv)
    (hp : getField good "processTime" = .ok pv)
    (hc : getField good "cost" = .ok cv) :
    validateGoodFormat good =
      if isStr nv = false ∨ isStr tv = false ∨ isNum pv = false ∨
          isNum cv = false ∨ asNum cv ≤ 0 ∨ asNum pv ≤ 0 ∨
          configGoodTypes.contains (asStr tv) = false then
        .ok false
      else
        (do
          let typeOk ← typeSpecificOk good tv
          if typeOk = false then pure false else arraysOk good) := by
  unfold validateGoodFormat
  rw [hn, ok_bind, ht, ok_bind, hp, ok_bind, hc, ok_bind]
  rfl

/-- A value on which property access never throws (not `null`/`undefined`). -/
def accessible (v : JSVal) : Prop := v ≠ JSVal.null ∧ v ≠ JSVal.undefined

/-- A sequence-typed field that can be scanned without throwing: when
truthy, it is an array of accessible entries. -/
def seqFieldOk (v : JSVal) : Prop :=
  truthy v = true → ∃ xs, v = JSVal.arr xs ∧ ∀ x ∈ xs, accessible x

/-- Every field read succeeds on an accessible value. -/
theorem getField_total {v : JSVal} (h : accessible v) (k : String) :
    ∃ w, getField v k = .ok w := by
  obtain ⟨h1, h2⟩ := h
  cases v with
  | null => exact absurd rfl h1
  | undefined => exact absurd rfl h2
  | bool b => exact ⟨_, rfl⟩
  | num n => exact ⟨_, rfl⟩
  | str s => exact ⟨_, rfl⟩
  | arr xs => exact ⟨_, rfl⟩
  | obj fs => exact ⟨_, rfl⟩

/-- Property validation cannot throw on an accessible entry. -/
theorem validateProperties_ok {x : JSVal} (h : accessible x) :
    ∃ b, validateProperties x = .ok b := by
  obtain ⟨n, hn⟩ := getField_total h "name"
  obtain ⟨v, hv⟩ := getField_total h "value"
  exact ⟨_, by unfold validateProperties; rw [hn, ok_bind, hv, ok_bind, pure_ok]⟩

/-- Component validation cannot throw on an accessible entry. -/
theorem validateComponent_ok {x : JSVal} (h : accessible x) :
    ∃ b, validateComponent x = .ok b := by
  obtain ⟨i, hi⟩ := getField_total h "id"
  obtain ⟨q, hq⟩ := getField_total h "quantity"
  exact ⟨_, by unfold validateComponent; rw [hi, ok_bind, hq, ok_bind, pure_ok]⟩

/-- On an array, the forEach pattern maps the element validator. -/
theorem checkArrayField_arr (validate : JSVal → Except Unit Bool)
    (xs : List JSVal) :
    checkArrayField validate (.arr xs) =
      (do
        let rs ← xs.mapM validate
        pure (rs.all (fun b => b))) := rfl

/-- On a falsy field the forEach pattern is skipped. -/
theorem checkArrayField_falsy (validate : JSVal → Except Unit Bool)
    {v : JSVal} (h : truthy v = false) :
    checkArrayField validate v = .ok true := by
  unfold checkArrayField
  rw [h]
  simp

/-- The forEach pattern cannot throw on a scannable field value. -/
theorem checkArrayField_ok {validate : JSVal → Except Unit Bool} {v : JSVal}
    (hv : seqFieldOk v) (hval : ∀ x, accessible x → ∃ b, validate x = .ok b) :
    ∃ b, checkArrayField validate v = .ok b := by
  cases ht : truthy v with
  | false => exact ⟨true, checkArrayField_falsy _ ht⟩
  | true =>
      obtain ⟨xs, rfl, hxs⟩ := hv ht
      obtain ⟨rs, hrs⟩ := mapM_ok_of_forall fun x hx => hval x (hxs x hx)
      exact ⟨_, by rw [checkArrayField_arr, hrs, ok_bind, pure_ok]⟩

/-- Validation cannot throw on an accessible candidate whose sequence
fields are scannable. -/
theorem validateGoodFormat_ok {good : JSVal} (hg : accessible good)
    (hprops : ∀ v, getField good "properties" = .ok v → seqFieldOk v)
    (hcomps : ∀ v, getField good "components" = .ok v → seqFieldOk v) :
    ∃ b, validateGoodFormat good = .ok b := by
  obtain ⟨nv, hn⟩ := getField_total hg "name"
  obtain ⟨tv, ht⟩ := getField_total hg "type"
  obtain ⟨pv, hp⟩ := getField_total hg "processTime"
  obtain ⟨cv, hc⟩ := getField_total hg "cost"
  rw [validateGoodFormat_reduce hn ht hp hc]
  by_cases hP : isStr nv = false ∨ isStr tv = false ∨ isNum pv = false ∨
      isNum cv = false ∨ asNum cv ≤ 0 ∨ asNum pv ≤ 0 ∨
      configGoodTypes.contains (asStr tv) = false
  · exact ⟨false, if_pos hP⟩
  · rw [if_neg hP]
    have hts : ∃ b1, typeSpecificOk good tv = .ok b1 := by
      unfold typeSpecificOk
      by_cases h1 : asStr tv = "raw"
      · rw [if_pos h1]
        obtain ⟨vv, hv⟩ := getField_total hg "vendor"
        exact ⟨_, by rw [hv, ok_bind, pure_ok]⟩
      · rw [if_neg h1]
        by_cases h2 : asStr tv = "finished"
        · rw [if_pos h2]
          obtain ⟨vv, hv⟩ := getField_total hg "price"
          exact ⟨_, by rw [hv, ok_bind, pure_ok]⟩
        · rw [if_neg h2]
          exact ⟨true, rfl⟩
    obtain ⟨b1, hb1⟩ := hts
    rw [hb1, ok_bind]
    by_cases hb1f : b1 = false
    · rw [if_pos hb1f]
      exact ⟨false, rfl⟩
    · rw [if_neg hb1f]
      unfold arraysOk
      obtain ⟨propsv, hpv⟩ := getField_total hg "properties"
      obtain ⟨b2, hb2⟩ := checkArrayField_ok (hprops propsv hpv)
        fun x hx => validateProperties_ok hx
      rw [hpv, ok_bind, hb2, ok_bind]
      by_cases hb2f : b2 = false
      · rw [if_pos hb2f]
        exact ⟨false, rfl⟩
      · rw [if_neg hb2f]
        obtain ⟨compsv, hcv⟩ := getField_total hg "components"
        obtain ⟨b3, hb3⟩ := checkArrayField_ok (hcomps compsv hcv)
          fun x hx => validateComponent_ok hx
        rw [hcv, ok_bind, hb3, ok_bind]
        by_cases hb3f : b3 = false
        · rw [if_pos hb3f]
          exact ⟨false, rfl⟩
        · rw [if_neg hb3f]
          exact ⟨true, rfl⟩

/-- The component resolver cannot throw on an array of accessible entries. -/
theorem checkIfComponentExists_ok (repo : Repo) {xs : List JSVal}
    (hxs : ∀ x ∈ xs, accessible x) :
    ∃ inv, checkIfComponentExists repo (.arr xs) = .ok inv := by
  obtain ⟨ids, hids⟩ :=
    mapM_ok_of_forall fun x hx => getField_total (hxs x hx) "id"
  have hcle : componentLookups (.arr xs) = .ok ids := hids
  exact ⟨ids.filter (fun id => !(getSingleGood repo id).status), by
    unfold checkIfComponentExists
    rw [hcle, ok_bind, pure_ok]⟩

/-- The persistence tail never throws: every branch, the `catch` included,
returns an envelope. -/
theorem saveGood_ok (repo : Repo) (good : JSVal) :
    ∃ env tr, saveGood repo good = (.ok env, tr) := by
  unfold saveGood
  split
  · split
    · split
      · exact ⟨_, _, rfl⟩
      · exact ⟨_, _, rfl⟩
    · exact ⟨_, _, rfl⟩
  · exact ⟨_, _, rfl⟩

/-- `addSingleGood` cannot throw on an accessible candidate whose sequence
fields are scannable. -/
theorem addSingleGood_ok (repo : Repo) {good : JSVal} (hg : accessible good)
    (hprops : ∀ v, getField good "properties" = .ok v → seqFieldOk v)
    (hcomps : ∀ v, getField good "components" = .ok v → seqFieldOk v) :
    ∃ env tr, addSingleGood repo good = (.ok env, tr) := by
  obtain ⟨b, hb⟩ := validateGoodFormat_ok hg hprops hcomps
  unfold addSingleGood
  split
  · next heq => rw [heq] at hb; cases hb
  · exact ⟨_, _, rfl⟩
  · next heq =>
      split
      · next heq2 =>
          obtain ⟨cv, hcv⟩ := getField_total hg "components"
          rw [heq2] at hcv
          cases hcv
      · next comps heq2 =>
          split
          · next htr =>
              split
              · next heq3 =>
                  obtain ⟨xs, rfl, hxs⟩ := hcomps comps heq2 htr
                  obtain ⟨inv, hinv⟩ := checkIfComponentExists_ok repo hxs
                  rw [heq3] at hinv
                  cases hinv
              · next notExist heq3 =>
                  split
                  · exact ⟨_, _, rfl⟩
                  · exact saveGood_ok repo good
          · exact saveGood_ok repo good

/-! ### Claim theorems -/

/-- The `raw` case of the validation switch checks `vendor`. -/
theorem typeSpecificOk_raw {good vv : JSVal}
    (hv : getField good "vendor" = .ok vv) :
    typeSpecificOk good (.str "raw") = .ok (isStr vv) := by
  unfold typeSpecificOk
  simp [asStr, hv]

/-- The `finished` case of the validation switch checks `price`. -/
theorem typeSpecificOk_finished {good pv : JSVal}
    (hp : getField good "price" = .ok pv) :
    typeSpecificOk good (.str "finished") = .ok (isNum pv && decide (0 < asNum pv)) := by
  unfold typeSpecificOk
  simp [asStr, hp]

/-- A string outside the configured type list fails the `contains` test. -/
theorem contains_eq_false_of_not_mem {s : String} (h : s ∉ configGoodTypes) :
    configGoodTypes.contains s = false := by
  cases hcb : configGoodTypes.contains s with
  | false => rfl
  | true =>
      obtain ⟨a, ha, hba⟩ := List.contains_iff_exists_mem_beq.mp hcb
      exact absurd (by rwa [eq_of_beq hba]) h

/-- C5: redaction removes exactly `price` for `raw` goods, exactly `price`
and `vendor` for `semi-finished` goods, and exactly `vendor` for `finished`
goods, leaving every other field unchanged. -/
theorem claim_C5_redaction_per_type :
    (∀ good, getField good "type" = .ok (.str "raw") →
      ∃ g, cleanUpGood good = .ok g ∧ getField g "price" = .ok .undefined ∧
        ∀ k, k ≠ "price" → getField g k = getField good k) ∧
    (∀ good, getField good "type" = .ok (.str "semi-finished") →
      ∃ g, cleanUpGood good = .ok g ∧ getField g "price" = .ok .undefined ∧
        getField g "vendor" = .ok .undefined ∧
        ∀ k, k ≠ "price" → k ≠ "vendor" → getField g k = getField good k) ∧
    (∀ good, getField good "type" = .ok (.str "finished") →
      ∃ g, cleanUpGood good = .ok g ∧ getField g "vendor" = .ok .undefined ∧
        ∀ k, k ≠ "vendor" → getField g k = getField good k) := by
  refine ⟨fun good h => ?_, fun good h => ?_, fun good h => ?_⟩
  · obtain ⟨fs, rfl⟩ := getField_str_obj h
    exact ⟨_, cleanUpGood_eq_raw h, getField_delField_self "price",
      fun k hk => getField_delField_ne _ hk⟩
  · obtain ⟨fs, rfl⟩ := getField_str_obj h
    refine ⟨_, cleanUpGood_eq_semi h, ?_, ?_, fun k hk1 hk2 => ?_⟩
    · rw [getField_delField_ne _ (by decide)]
      exact getField_delField_self "price"
    · exact getField_delField_self "vendor"
    · rw [getField_delField_ne _ hk2, getField_delField_ne _ hk1]
  · obtain ⟨fs, rfl⟩ := getField_str_obj h
    exact ⟨_, cleanUpGood_eq_finished h, getField_delField_self "vendor",
      fun k hk => getField_delField_ne _ hk⟩

/-- Witness for C5 at a concrete raw good carrying a `price` field. -/
theorem claim_C5_redaction_per_type_witness :
    ∃ g, cleanUpGood rawPricedEx = .ok g ∧ getField g "price" = .ok .undefined ∧
      ∀ k, k ≠ "price" → getField g k = getField rawPricedEx k :=
  claim_C5_redaction_per_type.1 rawPricedEx rfl

/-- C7: redaction is idempotent — cleaning an already-cleaned good changes
nothing. -/
theorem claim_C7_redaction_idempotent {g g' : JSVal}
    (h : cleanUpGood g = .ok g') : cleanUpGood g' = .ok g' := by
  cases hty : getField g "type" with
  | error e =>
      cases e
      unfold cleanUpGood at h
      rw [hty] at h
      simp at h
  | ok v =>
      cases v with
      | str s =>
          by_cases h1 : s = "raw"
          · subst h1
            rw [cleanUpGood_eq_raw hty] at h
            cases h
            have hty' : getField (delField g "price") "type" = .ok (.str "raw") := by
              rw [getField_delField_ne _ (by decide), hty]
            rw [cleanUpGood_eq_raw hty', delField_delField_self]
          · by_cases h2 : s = "semi-finished"
            · subst h2
              rw [cleanUpGood_eq_semi hty] at h
              cases h
              have hty' : getField (delField (delField g "price") "vendor") "type" =
                  .ok (.str "semi-finished") := by
                rw [getField_delField_ne _ (by decide),
                  getField_delField_ne _ (by decide), hty]
              rw [cleanUpGood_eq_semi hty']
              congr 1
              rw [delField_comm (delField g "price") "vendor" "price",
                delField_delField_self, delField_delField_self]
            · by_cases h3 : s = "finished"
              · subst h3
                rw [cleanUpGood_eq_finished hty] at h
                cases h
                have hty' : getField (delField g "vendor") "type" = .ok (.str "finished") := by
                  rw [getField_delField_ne _ (by decide), hty]
                rw [cleanUpGood_eq_finished hty', delField_delField_self]
              · have ho := cleanUpGood_eq_other hty (by simp [h1]) (by simp [h2]) (by simp [h3])
                rw [ho] at h
                cases h
                exact ho
      | undefined =>
          have ho := cleanUpGood_eq_other hty (by simp) (by simp) (by simp)
          rw [ho] at h; cases h; exact ho
      | null =>
          have ho := cleanUpGood_eq_other hty (by simp) (by simp) (by simp)
          rw [ho] at h; cases h; exact ho
      | bool b =>
          have ho := cleanUpGood_eq_other hty (by simp) (by simp) (by simp)
          rw [ho] at h; cases h; exact ho
      | num n =>
          have ho := cleanUpGood_eq_other hty (by simp) (by simp) (by simp)
          rw [ho] at h; cases h; exact ho
      | arr xs =>
          have ho := cleanUpGood_eq_other hty (by simp) (by simp) (by simp)
          rw [ho] at h; cases h; exact ho
      | obj fs2 =>
          have ho := cleanUpGood_eq_other hty (by simp) (by simp) (by simp)
          rw [ho] at h; cases h; exact ho

/-- Witness for C7 at a concrete priced raw good. -/
theorem claim_C7_redaction_idempotent_witness :
    cleanUpGood (delField rawPricedEx "price") = .ok (delField rawPricedEx "price") :=
  claim_C7_redaction_idempotent (g := rawPricedEx) rfl

/-- C8: a candidate rejected by validation produces a failure envelope with
the structural-validation message and the candidate echoed back, and no
persistence call is recorded. -/
theorem claim_C8_invalid_no_insert {good : JSVal} (repo : Repo)
    (h : validateGoodFormat good = .ok false) :
    addSingleGood repo good =
      (.ok { status := false, message := .str "Failed while validating good",
             good := good }, []) := by
  unfold addSingleGood
  rw [h]

/-- Witness for C8 at an otherwise well-formed raw candidate with cost 0. -/
theorem claim_C8_invalid_no_insert_witness :
    addSingleGood repoEx badCostEx =
      (.ok { status := false, message := .str "Failed while validating good",
             good := badCostEx }, []) :=
  claim_C8_invalid_no_insert repoEx rfl

/-- C10: a good whose `type` is none of the three variants is returned by
redaction with all fields intact, and a read through `getSingleGood` returns
it unredacted. -/
theorem claim_C10_unknown_type_unredacted {good v : JSVal} (repo : Repo)
    (id : JSVal) (h : getField good "type" = .ok v) (h1 : v ≠ .str "raw")
    (h2 : v ≠ .str "semi-finished") (h3 : v ≠ .str "finished")
    (hf : repo.findById id = .ok good) (ht : truthy good = true) :
    cleanUpGood good = .ok good ∧
    getSingleGood repo id = { status := true, message := good } := by
  have hc := cleanUpGood_eq_other h h1 h2 h3
  refine ⟨hc, ?_⟩
  unfold getSingleGood
  rw [hf]
  simp [ht, hc]

/-- Witness for C10 at a concrete good of type `widget`. -/
theorem claim_C10_unknown_type_unredacted_witness :
    cleanUpGood unknownTypeEx = .ok unknownTypeEx ∧
    getSingleGood mysteryRepo (.num 1) = { status := true, message := unknownTypeEx } :=
  claim_C10_unknown_type_unredacted (v := .str "widget") mysteryRepo (.num 1)
    rfl (by simp) (by simp) (by simp) rfl rfl

/-- C6: validation rejects non-positive `cost`, non-positive `processTime`,
a `type` outside the three variants, `raw` without a text `vendor`, and
`finished` without a positive numeric `price`; it accepts an otherwise
well-formed candidate of each of the three types. -/
theorem claim_C6_validate_rules :
    (∀ good c, getField good "cost" = .ok (.num c) → c ≤ 0 →
      validateGoodFormat good = .ok false) ∧
    (∀ good t, getField good "processTime" = .ok (.num t) → t ≤ 0 →
      validateGoodFormat good = .ok false) ∧
    (∀ good v, getField good "type" = .ok v →
      (∀ s, v = .str s → s ∉ configGoodTypes) →
      validateGoodFormat good = .ok false) ∧
    (∀ good v, getField good "type" = .ok (.str "raw") →
      getField good "vendor" = .ok v → isStr v = false →
      validateGoodFormat good = .ok false) ∧
    (∀ good v, getField good "type" = .ok (.str "finished") →
      getField good "price" = .ok v → isNum v = false ∨ asNum v ≤ 0 →
      validateGoodFormat good = .ok false) ∧
    validateGoodFormat rawEx = .ok true ∧
    validateGoodFormat semiEx = .ok true ∧
    validateGoodFormat finEx = .ok true := by
  refine ⟨?_, ?_, ?_, ?_, ?_, rfl, rfl, rfl⟩
  · intro good c hc hle
    obtain ⟨nv, hn⟩ := getField_ok_any "name" hc
    obtain ⟨tv, ht⟩ := getField_ok_any "type" hc
    obtain ⟨pv, hp⟩ := getField_ok_any "processTime" hc
    rw [validateGoodFormat_reduce hn ht hp hc]
    exact if_pos (Or.inr (Or.inr (Or.inr (Or.inr (Or.inl
      (by simpa [asNum] using hle))))))
  · intro good t hp hle
    obtain ⟨nv, hn⟩ := getField_ok_any "name" hp
    obtain ⟨tv, ht⟩ := getField_ok_any "type" hp
    obtain ⟨cv, hc⟩ := getField_ok_any "cost" hp
    rw [validateGoodFormat_reduce hn ht hp hc]
    exact if_pos (Or.inr (Or.inr (Or.inr (Or.inr (Or.inr (Or.inl
      (by simpa [asNum] using hle)))))))
  · intro good v ht hout
    obtain ⟨nv, hn⟩ := getField_ok_any "name" ht
    obtain ⟨pv, hp⟩ := getField_ok_any "processTime" ht
    obtain ⟨cv, hc⟩ := getField_ok_any "cost" ht
    rw [validateGoodFormat_reduce hn ht hp hc]
    cases v with
    | str s =>
        refine if_pos (Or.inr (Or.inr (Or.inr (Or.inr (Or.inr (Or.inr ?_))))))
        simpa [asStr] using contains_eq_false_of_not_mem (hout s rfl)
    | undefined => exact if_pos (Or.inr (Or.inl rfl))
    | null => exact if_pos (Or.inr (Or.inl rfl))
    | bool b => exact if_pos (Or.inr (Or.inl rfl))
    | num n => exact if_pos (Or.inr (Or.inl rfl))
    | arr xs => exact if_pos (Or.inr (Or.inl rfl))
    | obj fs => exact if_pos (Or.inr (Or.inl rfl))
  · intro good v ht hv hns
    obtain ⟨nv, hn⟩ := getField_ok_any "name" ht
    obtain ⟨pv, hp⟩ := getField_ok_any "processTime" ht
    obtain ⟨cv, hc⟩ := getField_ok_any "cost" ht
    rw [validateGoodFormat_reduce hn ht hp hc]
    by_cases hP : isStr nv = false ∨ isStr (JSVal.str "raw") = false ∨
        isNum pv = false ∨ isNum cv = false ∨ asNum cv ≤ 0 ∨ asNum pv ≤ 0 ∨
        configGoodTypes.contains (asStr (JSVal.str "raw")) = false
    · exact if_pos hP
    · rw [if_neg hP]
      have hts : typeSpecificOk good (.str "raw") = .ok false := by
        rw [typeSpecificOk_raw hv, hns]
      rw [hts, ok_bind]
      simp
  · intro good v ht hv hbad
    obtain ⟨nv, hn⟩ := getField_ok_any "name" ht
    obtain ⟨pv, hp⟩ := getField_ok_any "processTime" ht
    obtain ⟨cv, hc⟩ := getField_ok_any "cost" ht
    rw [validateGoodFormat_reduce hn ht hp hc]
    by_cases hP : isStr nv = false ∨ isStr (JSVal.str "finished") = false ∨
        isNum pv = false ∨ isNum cv = false ∨ asNum cv ≤ 0 ∨ asNum pv ≤ 0 ∨
        configGoodTypes.contains (asStr (JSVal.str "finished")) = false
    · exact if_pos hP
    · rw [if_neg hP]
      have hts : typeSpecificOk good (.str "finished") = .ok false := by
        rw [typeSpecificOk_finished hv]
        rcases hbad with h | h
        · rw [h]
          simp
        · rw [decide_eq_false (not_lt.mpr h)]
          simp
      rw [hts, ok_bind]
      simp

/-- Witness for C6: a cost-0 raw candidate is rejected, a well-formed one
accepted. -/
theorem claim_C6_validate_rules_witness :
    validateGoodFormat badCostEx = .ok false ∧
    validateGoodFormat rawEx = .ok true :=
  ⟨claim_C6_validate_rules.1 badCostEx 0 rfl (by decide),
   claim_C6_validate_rules.2.2.2.2.2.1⟩

/-- C1 (amended): validation rejects every candidate whose `name` is not a
text value; the empty string is a text value and an otherwise well-formed
candidate with an empty `name` is accepted. -/
theorem claim_C1_name_validation :
    (∀ good v, getField good "name" = .ok v → isStr v = false →
      validateGoodFormat good = .ok false) ∧
    validateGoodFormat emptyNameEx = .ok true := by
  refine ⟨?_, rfl⟩
  intro good v hn hns
  obtain ⟨tv, ht⟩ := getField_ok_any "type" hn
  obtain ⟨pv, hp⟩ := getField_ok_any "processTime" hn
  obtain ⟨cv, hc⟩ := getField_ok_any "cost" hn
  rw [validateGoodFormat_reduce hn ht hp hc]
  exact if_pos (Or.inl hns)

/-- Counterexample to C1 as stated: the candidate whose `name` is the empty
string but which is otherwise well-formed is accepted, not rejected. -/
theorem claim_C1_counterexample :
    getField emptyNameEx "name" = .ok (.str "") ∧
    validateGoodFormat emptyNameEx = .ok true ∧
    validateGoodFormat emptyNameEx ≠ .ok false := by
  refine ⟨rfl, rfl, fun h => ?_⟩
  have h2 : (Except.ok true : Except Unit Bool) = .ok false :=
    ((rfl : validateGoodFormat emptyNameEx = .ok true).symm).trans h
  exact Bool.noConfusion (Except.ok.inj h2)

/-- Witness for C1 (amended): a candidate with no `name` field is rejected. -/
theorem claim_C1_name_validation_witness :
    validateGoodFormat noNameEx = .ok false ∧
    validateGoodFormat emptyNameEx = .ok true :=
  ⟨claim_C1_name_validation.1 noNameEx .undefined rfl rfl,
   claim_C1_name_validation.2⟩

/-- C3 (amended): the resolver issues one existence lookup per referenced
component entry (ids are not deduplicated), collects every referenced id
whose lookup does not report success rather than stopping at the first miss,
and on `[\x7bid: 7\x7d, \x7bid: 99\x7d]` with only 7 existing returns
exactly `[99]`. -/
theorem claim_C3_resolver :
    (∀ (repo : Repo) (cs : List JSVal) ids,
      componentLookups (.arr cs) = .ok ids →
      ids.length = cs.length ∧
      checkIfComponentExists repo (.arr cs) =
        .ok (ids.filter (fun id => !(getSingleGood repo id).status))) ∧
    checkIfComponentExists repoEx (.arr [comp7, comp99]) = .ok [.num 99] ∧
    checkIfComponentExists repoEx (.arr [comp99, comp7, comp42]) =
      .ok [.num 99, .num 42] := by
  refine ⟨?_, rfl, rfl⟩
  intro repo cs ids h
  refine ⟨mapM_ok_length h, ?_⟩
  unfold checkIfComponentExists
  rw [h, ok_bind, pure_ok]

/-- Counterexample to C3 as stated: the same missing id referenced twice is
looked up twice and reported twice, not once per distinct id. -/
theorem claim_C3_counterexample :
    componentLookups (.arr [comp99, comp99]) = .ok [.num 99, .num 99] ∧
    checkIfComponentExists repoEx (.arr [comp99, comp99]) =
      .ok [.num 99, .num 99] ∧
    (getSingleGood repoEx (.num 99)).status = false :=
  ⟨rfl, rfl, rfl⟩

/-- Witness for C3 (amended) on the concrete two-component example. -/
theorem claim_C3_resolver_witness :
    ([JSVal.num 7, JSVal.num 99] : List JSVal).length = [comp7, comp99].length ∧
    checkIfComponentExists repoEx (.arr [comp7, comp99]) =
      .ok (([JSVal.num 7, JSVal.num 99]).filter
        (fun id => !(getSingleGood repoEx id).status)) :=
  claim_C3_resolver.1 repoEx [comp7, comp99] [.num 7, .num 99] rfl

/-- C4 (amended): an id is reported invalid exactly when it is among the
referenced ids and its `getSingleGood` lookup reports `status: false`; a
thrown repository lookup is caught and also reported as `status: false`, so
lookup errors are counted as invalid alongside not-found misses. -/
theorem claim_C4_invalid_iff_lookup_failure :
    (∀ (repo : Repo) comps ids inv, componentLookups comps = .ok ids →
      checkIfComponentExists repo comps = .ok inv →
      ∀ id, id ∈ inv ↔ id ∈ ids ∧ (getSingleGood repo id).status = false) ∧
    (∀ (repo : Repo) id, repo.findById id = .error () →
      (getSingleGood repo id).status = false) := by
  constructor
  · intro repo comps ids inv h hc id
    unfold checkIfComponentExists at hc
    rw [h, ok_bind, pure_ok] at hc
    cases hc
    simp [List.mem_filter]
  · intro repo id h
    unfold getSingleGood
    rw [h]

/-- Counterexample to C4 as stated: the lookup of id 5 throws — a repository
error, not a not-found outcome — yet 5 is reported invalid. -/
theorem claim_C4_counterexample :
    errRepo.findById (.num 5) = .error () ∧
    checkIfComponentExists errRepo
      (.arr [.obj [("id", .num 5), ("quantity", .num 1)]]) = .ok [.num 5] :=
  ⟨rfl, rfl⟩

/-- Witness for C4 (amended) at the erroring repository and id 5. -/
theorem claim_C4_invalid_iff_lookup_failure_witness :
    (JSVal.num 5 ∈ ([.num 5] : List JSVal) ↔
      JSVal.num 5 ∈ ([.num 5] : List JSVal) ∧
        (getSingleGood errRepo (.num 5)).status = false) ∧
    (getSingleGood errRepo (.num 5)).status = false :=
  ⟨claim_C4_invalid_iff_lookup_failure.1 errRepo
      (.arr [.obj [("id", .num 5), ("quantity", .num 1)]])
      [.num 5] [.num 5] rfl rfl (.num 5),
   claim_C4_invalid_iff_lookup_failure.2 errRepo (.num 5) rfl⟩

/-- C2 (amended): on every candidate that is not `null`/`undefined` and
whose `properties` and `components` fields, when truthy, are sequences of
non-`null`/`undefined` entries, validation returns a boolean and
`addSingleGood` returns a result envelope — rejection is by `false` / a
failure envelope, and no exception escapes. (A truthy non-sequence value in
those fields, by contrast, throws: see the counterexample.) -/
theorem claim_C2_no_exception {good : JSVal} (repo : Repo)
    (hg : accessible good)
    (hprops : ∀ v, getField good "properties" = .ok v → seqFieldOk v)
    (hcomps : ∀ v, getField good "components" = .ok v → seqFieldOk v) :
    (∃ b, validateGoodFormat good = .ok b) ∧
    (∃ env tr, addSingleGood repo good = (.ok env, tr)) :=
  ⟨validateGoodFormat_ok hg hprops hcomps,
   addSingleGood_ok repo hg hprops hcomps⟩

/-- Counterexample to C2 as stated: a candidate whose `properties` field is
the truthy non-sequence `1` makes `validateGoodFormat` and `addSingleGood`
throw instead of returning `false` / a failure envelope. -/
theorem claim_C2_counterexample :
    validateGoodFormat badPropsEx = .error () ∧
    addSingleGood repoEx badPropsEx = (.error (), []) :=
  ⟨rfl, rfl⟩

/-- Witness for C2 (amended) at a raw candidate with a component list. -/
theorem claim_C2_no_exception_witness :
    (∃ b, validateGoodFormat rawCompsEx = .ok b) ∧
    (∃ env tr, addSingleGood repoEx rawCompsEx = (.ok env, tr)) :=
  claim_C2_no_exception repoEx
    ⟨by simp [rawCompsEx], by simp [rawCompsEx]⟩
    (fun v hv => by
      rw [show getField rawCompsEx "properties" = Except.ok JSVal.undefined
        from rfl] at hv
      cases hv
      intro htr
      simp [truthy] at htr)
    (fun v hv => by
      rw [show getField rawCompsEx "components" = Except.ok (JSVal.arr [comp7])
        from rfl] at hv
      cases hv
      intro htr
      refine ⟨[comp7], rfl, fun x hx => ?_⟩
      rw [List.mem_singleton] at hx
      subst hx
      exact ⟨by simp [comp7], by simp [comp7]⟩)

/-- C9 (amended): when no element's processing throws, `addBulkGoods` and
`archiveMultipleGoods` return exactly one envelope per input element, in
input order, and each slot holds exactly the result of processing that
element alone, so envelope-reported failures leave siblings untouched; an
element whose processing throws rejects the whole batch instead (see the
counterexample). -/
theorem claim_C9_bulk_per_element :
    (∀ (repo : Repo) goods rs, addBulkGoods repo goods = .ok rs →
      rs.length = goods.length ∧
      ∀ i (hi : i < goods.length) (hi' : i < rs.length),
        (addSingleGood repo (goods.get ⟨i, hi⟩)).1 = .ok (rs.get ⟨i, hi'⟩)) ∧
    (∀ (repo : Repo) entries rs, archiveMultipleGoods repo entries = .ok rs →
      rs.length = entries.length ∧
      ∀ i (hi : i < entries.length) (hi' : i < rs.length),
        (do
          let id ← getField (entries.get ⟨i, hi⟩) "id"
          let ar ← getField (entries.get ⟨i, hi⟩) "archive"
          pure (archiveGood repo id ar)) = .ok (rs.get ⟨i, hi'⟩)) ∧
    addBulkGoods repoEx [rawEx, badCostEx, finEx] = .ok bulkResultsEx := by
  refine ⟨fun repo goods rs h => ?_, fun repo entries rs h => ?_, rfl⟩
  · exact ⟨mapM_ok_length h, fun i hi hi' => mapM_ok_get h i hi hi'⟩
  · exact ⟨mapM_ok_length h, fun i hi hi' => mapM_ok_get h i hi hi'⟩

/-- Counterexample to C9 as stated: one element whose processing throws (a
truthy non-sequence `properties`) rejects the whole batch, so the sibling
elements get no result at all even though each succeeds alone. -/
theorem claim_C9_counterexample :
    (addSingleGood repoEx badPropsEx).1 = .error () ∧
    addBulkGoods repoEx [rawEx, badPropsEx, finEx] = .error () ∧
    (addSingleGood repoEx rawEx).1 =
      .ok { status := true, message := .str "Successfully saved new good",
            good := rawEx } ∧
    (addSingleGood repoEx finEx).1 =
      .ok { status := true, message := .str "Successfully saved new good",
            good := finEx } :=
  ⟨rfl, rfl, rfl, rfl⟩

/-- Witness for C9 (amended): the middle slot of the three-candidate batch
is exactly the standalone failure envelope of the invalid candidate. -/
theorem claim_C9_bulk_per_element_witness :
    (addSingleGood repoEx badCostEx).1 =
      .ok { status := false, message := .str "Failed while validating good",
            good := badCostEx } ∧
    bulkResultsEx.length = 3 := by
  have h := claim_C9_bulk_per_element.1 repoEx [rawEx, badCostEx, finEx]
    bulkResultsEx claim_C9_bulk_per_element.2.2
  have h2 := h.2 1 (by decide) (by rw [h.1]; decide)
  exact ⟨h2, by rw [h.1]; rfl⟩

end Goods
